import Mathlib

/-!
Verification development for the FamilyCom repository.

The definitions in this file are shallow embeddings of the Rust sources:

* crates/familycom-core/src/protocol.rs  (wire codec, framed reader)
* crates/familycom-core/src/db.rs        (message store operations)
* crates/familycom-core/src/types.rs     (validated domain types)
* crates/familycomd/src/client.rs        (outbound send with fall-through)
* crates/familycomd/src/server.rs        (inbound per-connection handler)
* crates/familycomd/src/app.rs           (daemon core request handlers)
* crates/familycomd/src/discovery.rs     (mDNS browse loop)

Machine strings are modelled as lists of bytes (List Nat, each below 256)
at the codec layer and as lists of characters where the code performs
character-level trimming.  Network and database side effects are modelled
as explicit oracle parameters so that the pure control flow of the Rust
code is preserved.
-/

namespace FamilyCom

/-! ## Byte-level utilities

Big-endian encoding of fixed-width unsigned integers, as produced by
u32::to_be_bytes and friends in protocol.rs, and the inverse reader. -/

/-- Big-endian bytes of n, width k.  Mirrors to_be_bytes on a k-byte integer. -/
def toBE : Nat → Nat → List Nat
  | 0, _ => []
  | k + 1, n => toBE k (n / 256) ++ [n % 256]

/-- Reads a big-endian unsigned integer from a byte list (from_be_bytes). -/
def fromBE (bs : List Nat) : Nat :=
  bs.foldl (fun acc b => acc * 256 + b) 0

theorem toBE_length (k n : Nat) : (toBE k n).length = k := by
  induction k generalizing n with
  | zero => rfl
  | succ k ih => simp [toBE, ih]

theorem fromBE_append (xs ys : List Nat) :
    fromBE (xs ++ ys) = ys.foldl (fun acc b => acc * 256 + b) (fromBE xs) := by
  simp [fromBE, List.foldl_append]

theorem fromBE_toBE (k n : Nat) (h : n < 256 ^ k) : fromBE (toBE k n) = n := by
  induction k generalizing n with
  | zero => simp [toBE, fromBE]; omega
  | succ k ih =>
      have hdiv : n / 256 < 256 ^ k := by
        have : 256 ^ (k + 1) = 256 ^ k * 256 := by ring
        omega
      have := ih (n / 256) hdiv
      simp [toBE, fromBE_append, this]
      omega

/-- Splits off exactly n bytes, failing when fewer are available.
Models read_exact style consumption from an in-memory buffer. -/
def takeN (n : Nat) (bs : List Nat) : Option (List Nat × List Nat) :=
  if n ≤ bs.length then some (bs.take n, bs.drop n) else none

theorem takeN_append (s r : List Nat) : takeN s.length (s ++ r) = some (s, r) := by
  simp [takeN, List.take_left, List.drop_left]

/-- Reads a k-byte big-endian unsigned integer. -/
def readUInt (k : Nat) (bs : List Nat) : Option (Nat × List Nat) :=
  match takeN k bs with
  | some (h, t) => some (fromBE h, t)
  | none => none

theorem readUInt_toBE (k n : Nat) (r : List Nat) (h : n < 256 ^ k) :
    readUInt k (toBE k n ++ r) = some (n, r) := by
  have hl := toBE_length k n
  have : takeN k (toBE k n ++ r) = some (toBE k n, r) := by
    simpa [hl] using takeN_append (toBE k n) r
  simp [readUInt, this, fromBE_toBE k n h]

/-! ## MessagePack scalar codec

protocol.rs serializes PeerMessage with rmp_serde::to_vec_named and reads it
back with rmp_serde::from_slice.  The payloads produced for PeerMessage are
maps whose keys are strings and whose values are strings or 64-bit signed
integers, so the embedding models exactly that fragment of MessagePack: the
string formats (fixstr, str8, str16, str32), the integer formats chosen by
rmp write_sint, and fixmap / map16 / map32 headers. -/

/-- A scalar MessagePack value occurring in PeerMessage payloads. -/
inductive MpScalar where
  | str (s : List Nat)
  | int (i : Int)
deriving DecidableEq, Repr

/-- String length header, as written by rmp write_str_len. -/
def encodeStrLen (n : Nat) : List Nat :=
  if n < 32 then [0xa0 + n]
  else if n < 256 then [0xd9, n]
  else if n < 65536 then 0xda :: toBE 2 n
  else 0xdb :: toBE 4 n

/-- MessagePack string: length header followed by the UTF-8 bytes. -/
def encodeStr (s : List Nat) : List Nat :=
  encodeStrLen s.length ++ s

/-- Signed 64-bit integer in the most compact format, following the guard
order of rmp encode write_sint (which rmp_serde uses for i64 fields). -/
def encodeSInt (i : Int) : List Nat :=
  if -32 ≤ i ∧ i < 0 then [(i + 256).toNat]
  else if 0 ≤ i ∧ i < 128 then [i.toNat]
  else if -128 ≤ i ∧ i < -32 then [0xd0, (i + 256).toNat]
  else if 128 ≤ i ∧ i < 256 then [0xcc, i.toNat]
  else if -32768 ≤ i ∧ i < -128 then 0xd1 :: toBE 2 (i + 65536).toNat
  else if 256 ≤ i ∧ i < 65536 then 0xcd :: toBE 2 i.toNat
  else if -2147483648 ≤ i ∧ i < -32768 then 0xd2 :: toBE 4 (i + 4294967296).toNat
  else if 65536 ≤ i ∧ i < 4294967296 then 0xce :: toBE 4 i.toNat
  else if i < 0 then 0xd3 :: toBE 8 (i + 18446744073709551616).toNat
  else 0xcf :: toBE 8 i.toNat

/-- Two-complement decoding of an unsigned value (half = 2 to the w-1,
full = 2 to the w) into a signed integer, as done by the rmp reader for the
int8/int16/int32/int64 formats. -/
def sdecode (half full n : Nat) : Int :=
  if n < half then (n : Int) else (n : Int) - full

/-- Reads one scalar (string or integer) MessagePack value.  This models the
subset of marker bytes the rmp reader can produce for the payload fields of
PeerMessage; other markers make deserialization fail for these field types. -/
def parseScalar : List Nat → Option (MpScalar × List Nat)
  | [] => none
  | b :: rest =>
    if b ≤ 0x7f then some (.int (b : Int), rest)
    else if 0xa0 ≤ b ∧ b ≤ 0xbf then
      match takeN (b - 0xa0) rest with
      | some (s, t) => some (.str s, t)
      | none => none
    else if b = 0xcc then
      match readUInt 1 rest with
      | some (n, t) => some (.int (n : Int), t)
      | none => none
    else if b = 0xcd then
      match readUInt 2 rest with
      | some (n, t) => some (.int (n : Int), t)
      | none => none
    else if b = 0xce then
      match readUInt 4 rest with
      | some (n, t) => some (.int (n : Int), t)
      | none => none
    else if b = 0xcf then
      match readUInt 8 rest with
      | some (n, t) => if n < 2 ^ 63 then some (.int (n : Int), t) else none
      | none => none
    else if b = 0xd0 then
      match readUInt 1 rest with
      | some (n, t) => some (.int (sdecode 128 256 n), t)
      | none => none
    else if b = 0xd1 then
      match readUInt 2 rest with
      | some (n, t) => some (.int (sdecode 32768 65536 n), t)
      | none => none
    else if b = 0xd2 then
      match readUInt 4 rest with
      | some (n, t) => some (.int (sdecode 2147483648 4294967296 n), t)
      | none => none
    else if b = 0xd3 then
      match readUInt 8 rest with
      | some (n, t) => some (.int (sdecode 9223372036854775808 18446744073709551616 n), t)
      | none => none
    else if b = 0xd9 then
      match readUInt 1 rest with
      | some (n, t) =>
        match takeN n t with
        | some (s, u) => some (.str s, u)
        | none => none
      | none => none
    else if b = 0xda then
      match readUInt 2 rest with
      | some (n, t) =>
        match takeN n t with
        | some (s, u) => some (.str s, u)
        | none => none
      | none => none
    else if b = 0xdb then
      match readUInt 4 rest with
      | some (n, t) =>
        match takeN n t with
        | some (s, u) => some (.str s, u)
        | none => none
      | none => none
    else if 0xe0 ≤ b ∧ b ≤ 0xff then some (.int ((b : Int) - 256), rest)
    else none

theorem parseScalar_str (s r : List Nat) (h : s.length < 2 ^ 32) :
    parseScalar (encodeStr s ++ r) = some (.str s, r) := by
  have htake := takeN_append s r
  by_cases h32 : s.length < 32
  · have : encodeStr s ++ r = (0xa0 + s.length) :: (s ++ r) := by
      simp [encodeStr, encodeStrLen, h32]
    rw [this]
    simp only [parseScalar]
    rw [if_neg (by omega), if_pos (by omega)]
    simp only [Nat.add_sub_cancel_left, htake]
  · by_cases h256 : s.length < 256
    · have : encodeStr s ++ r = 0xd9 :: s.length :: (s ++ r) := by
        simp [encodeStr, encodeStrLen, h32, h256]
      rw [this]
      simp only [parseScalar]
      rw [if_neg (by omega), if_neg (by omega), if_neg (by omega), if_neg (by omega)]
      rw [if_neg (by omega), if_neg (by omega), if_neg (by omega), if_neg (by omega)]
      rw [if_neg (by omega), if_neg (by omega), if_pos trivial]
      have h1 : readUInt 1 (s.length :: (s ++ r)) = some (s.length, s ++ r) := by
        have : (s.length :: (s ++ r)) = toBE 1 s.length ++ (s ++ r) := by
          simp [toBE]; omega
        rw [this, readUInt_toBE 1 s.length (s ++ r) (by simpa [Nat.pow] using h256)]
      rw [h1]
      simp only [htake]
    · by_cases h65536 : s.length < 65536
      · have : encodeStr s ++ r = 0xda :: (toBE 2 s.length ++ (s ++ r)) := by
          simp [encodeStr, encodeStrLen, h32, h256, h65536]
        rw [this]
        simp only [parseScalar]
        rw [if_neg (by omega), if_neg (by omega), if_neg (by omega), if_neg (by omega)]
        rw [if_neg (by omega), if_neg (by omega), if_neg (by omega), if_neg (by omega)]
        rw [if_neg (by omega), if_neg (by omega), if_neg (by omega), if_pos trivial]
        rw [readUInt_toBE 2 s.length (s ++ r) (by norm_num; omega)]
        simp only [htake]
      · have : encodeStr s ++ r = 0xdb :: (toBE 4 s.length ++ (s ++ r)) := by
          simp [encodeStr, encodeStrLen, h32, h256, h65536]
        rw [this]
        simp only [parseScalar]
        rw [if_neg (by omega), if_neg (by omega), if_neg (by omega), if_neg (by omega)]
        rw [if_neg (by omega), if_neg (by omega), if_neg (by omega), if_neg (by omega)]
        rw [if_neg (by omega), if_neg (by omega), if_neg (by omega), if_neg (by omega)]
        rw [if_pos trivial]
        rw [readUInt_toBE 4 s.length (s ++ r) (by norm_num; omega)]
        simp only [htake]

theorem readUInt_one (x : Nat) (r : List Nat) : readUInt 1 (x :: r) = some (x, r) := by
  simp [readUInt, takeN, fromBE]

theorem parseScalar_int (i : Int) (r : List Nat)
    (hlo : -9223372036854775808 ≤ i) (hhi : i < 9223372036854775808) :
    parseScalar (encodeSInt i ++ r) = some (.int i, r) := by
  by_cases c1 : -32 ≤ i ∧ i < 0
  · have he : encodeSInt i ++ r = (i + 256).toNat :: r := by
      simp [encodeSInt, c1]
    rw [he]
    simp only [parseScalar]
    rw [if_neg (by omega), if_neg (by omega), if_neg (by omega), if_neg (by omega)]
    rw [if_neg (by omega), if_neg (by omega), if_neg (by omega), if_neg (by omega)]
    rw [if_neg (by omega), if_neg (by omega), if_neg (by omega), if_neg (by omega)]
    rw [if_neg (by omega), if_pos (by omega)]
    have hv : ((i + 256).toNat : Int) - 256 = i := by omega
    rw [hv]
  · by_cases c2 : 0 ≤ i ∧ i < 128
    · have he : encodeSInt i ++ r = i.toNat :: r := by
        simp [encodeSInt, c1, c2]
      rw [he]
      simp only [parseScalar]
      rw [if_pos (by omega)]
      have hv : (i.toNat : Int) = i := by omega
      rw [hv]
    · by_cases c3 : -128 ≤ i ∧ i < -32
      · have he : encodeSInt i ++ r = 0xd0 :: (i + 256).toNat :: r := by
          simp [encodeSInt, c1, c2, c3]
        rw [he]
        simp only [parseScalar]
        norm_num
        simp only [readUInt_one]
        have hv : sdecode 128 256 (i + 256).toNat = i := by
          unfold sdecode
          rw [if_neg (by omega)]
          omega
        simp only [hv]
      · by_cases c4 : 128 ≤ i ∧ i < 256
        · have he : encodeSInt i ++ r = 0xcc :: i.toNat :: r := by
            simp [encodeSInt, c1, c2, c3, c4]
          rw [he]
          simp only [parseScalar]
          norm_num
          simp only [readUInt_one]
          have hv : (i.toNat : Int) = i := by omega
          simp only [hv]
        · by_cases c5 : -32768 ≤ i ∧ i < -128
          · have he : encodeSInt i ++ r = 0xd1 :: (toBE 2 (i + 65536).toNat ++ r) := by
              simp [encodeSInt, c1, c2, c3, c4, c5]
            rw [he]
            simp only [parseScalar]
            norm_num
            simp only [readUInt_toBE 2 (i + 65536).toNat r (by norm_num; omega)]
            have hv : sdecode 32768 65536 (i + 65536).toNat = i := by
              unfold sdecode
              rw [if_neg (by omega)]
              omega
            simp only [hv]
          · by_cases c6 : 256 ≤ i ∧ i < 65536
            · have he : encodeSInt i ++ r = 0xcd :: (toBE 2 i.toNat ++ r) := by
                simp [encodeSInt, c1, c2, c3, c4, c5, c6]
              rw [he]
              simp only [parseScalar]
              norm_num
              simp only [readUInt_toBE 2 i.toNat r (by norm_num; omega)]
              have hv : (i.toNat : Int) = i := by omega
              simp only [hv]
            · by_cases c7 : -2147483648 ≤ i ∧ i < -32768
              · have he : encodeSInt i ++ r =
                    0xd2 :: (toBE 4 (i + 4294967296).toNat ++ r) := by
                  simp [encodeSInt, c1, c2, c3, c4, c5, c6, c7]
                rw [he]
                simp only [parseScalar]
                norm_num
                simp only [readUInt_toBE 4 (i + 4294967296).toNat r (by norm_num; omega)]
                have hv : sdecode 2147483648 4294967296 (i + 4294967296).toNat = i := by
                  unfold sdecode
                  rw [if_neg (by omega)]
                  omega
                simp only [hv]
              · by_cases c8 : 65536 ≤ i ∧ i < 4294967296
                · have he : encodeSInt i ++ r = 0xce :: (toBE 4 i.toNat ++ r) := by
                    simp [encodeSInt, c1, c2, c3, c4, c5, c6, c7, c8]
                  rw [he]
                  simp only [parseScalar]
                  norm_num
                  simp only [readUInt_toBE 4 i.toNat r (by norm_num; omega)]
                  have hv : (i.toNat : Int) = i := by omega
                  simp only [hv]
                · by_cases c9 : i < 0
                  · have he : encodeSInt i ++ r =
                        0xd3 :: (toBE 8 (i + 18446744073709551616).toNat ++ r) := by
                      unfold encodeSInt
                      rw [if_neg (by omega), if_neg (by omega), if_neg (by omega), if_neg (by omega)]
                      rw [if_neg (by omega), if_neg (by omega), if_neg (by omega), if_neg (by omega)]
                      rw [if_pos c9]
                      simp
                    rw [he]
                    simp only [parseScalar]
                    norm_num
                    simp only [readUInt_toBE 8 (i + 18446744073709551616).toNat r
                      (by norm_num; omega)]
                    have hv : sdecode 9223372036854775808 18446744073709551616
                        (i + 18446744073709551616).toNat = i := by
                      unfold sdecode
                      rw [if_neg (by omega)]
                      omega
                    simp only [hv]
                  · have he : encodeSInt i ++ r = 0xcf :: (toBE 8 i.toNat ++ r) := by
                      unfold encodeSInt
                      rw [if_neg (by omega), if_neg (by omega), if_neg (by omega), if_neg (by omega)]
                      rw [if_neg (by omega), if_neg (by omega), if_neg (by omega), if_neg (by omega)]
                      rw [if_neg c9]
                      simp
                    rw [he]
                    simp only [parseScalar]
                    norm_num
                    simp only [readUInt_toBE 8 i.toNat r (by norm_num; omega)]
                    rw [if_pos (by omega)]
                    have hv : (i.toNat : Int) = i := by omega
                    simp only [hv]

/-! ## PeerMessage and the wire codec (protocol.rs)

PeerMessage is the serde enum with the internally tagged representation
(serde tag = "type"), so rmp_serde::to_vec_named serializes each variant as
a map whose first entry is "type" mapped to the variant name, followed by
the named fields in declaration order.  The newtype fields MessageId, PeerId
and Timestamp serialize as their inner string / i64. -/

/-- UTF-8 bytes of an ASCII string literal (used for map keys and tags). -/
def asciiBytes (s : String) : List Nat :=
  s.data.map fun c => c.toNat

/-- The bytes of the serde tag key "type". -/
def keyType : List Nat := [116, 121, 112, 101]

/-- The bytes of the variant name "Chat". -/
def tagChat : List Nat := [67, 104, 97, 116]

/-- The bytes of the field name "id". -/
def keyId : List Nat := [105, 100]

/-- The bytes of the field name "sender_id". -/
def keySenderId : List Nat := [115, 101, 110, 100, 101, 114, 95, 105, 100]

/-- The bytes of the field name "sender_name". -/
def keySenderName : List Nat := [115, 101, 110, 100, 101, 114, 95, 110, 97, 109, 101]

/-- The bytes of the field name "content". -/
def keyContent : List Nat := [99, 111, 110, 116, 101, 110, 116]

/-- The bytes of the field name "timestamp". -/
def keyTimestamp : List Nat := [116, 105, 109, 101, 115, 116, 97, 109, 112]

/-- The bytes of the variant name "Ack". -/
def tagAck : List Nat := [65, 99, 107]

/-- The bytes of the field name "message_id". -/
def keyMessageId : List Nat := [109, 101, 115, 115, 97, 103, 101, 95, 105, 100]

/-- The bytes of the variant name "Ping". -/
def tagPing : List Nat := [80, 105, 110, 103]

/-- The bytes of the variant name "Pong". -/
def tagPong : List Nat := [80, 111, 110, 103]

theorem keyType_eq : keyType = asciiBytes "type" := by decide

theorem keySenderName_eq : keySenderName = asciiBytes "sender_name" := by decide

theorem keyMessageId_eq : keyMessageId = asciiBytes "message_id" := by decide

/-- The peer-to-peer wire message (protocol.rs PeerMessage).  String fields
are modelled by their UTF-8 byte lists, the timestamp by its i64 value. -/
inductive PeerMessage where
  | chat (id sender_id sender_name content : List Nat) (timestamp : Int)
  | ack (message_id : List Nat)
  | ping
  | pong
deriving DecidableEq, Repr

/-- MessagePack payload of a PeerMessage, as produced by
rmp_serde::to_vec_named on the internally tagged enum (serde tag = "type"):
a fixmap whose first entry maps "type" to the variant name, followed by the
named fields in declaration order. -/
def encodeMsgPayload : PeerMessage → List Nat
  | .chat id sender_id sender_name content timestamp =>
    0x86 :: (encodeStr keyType ++ (encodeStr tagChat ++
      (encodeStr keyId ++ (encodeStr id ++
      (encodeStr keySenderId ++ (encodeStr sender_id ++
      (encodeStr keySenderName ++ (encodeStr sender_name ++
      (encodeStr keyContent ++ (encodeStr content ++
      (encodeStr keyTimestamp ++ encodeSInt timestamp)))))))))))
  | .ack message_id =>
    0x82 :: (encodeStr keyType ++ (encodeStr tagAck ++
      (encodeStr keyMessageId ++ encodeStr message_id)))
  | .ping => 0x81 :: (encodeStr keyType ++ encodeStr tagPing)
  | .pong => 0x81 :: (encodeStr keyType ++ encodeStr tagPong)

/-- protocol.rs encode: 4-byte big-endian length (payload.len() as u32,
hence the modulus) followed by the MessagePack payload. -/
def encode (m : PeerMessage) : List Nat :=
  toBE 4 ((encodeMsgPayload m).length % 4294967296) ++ encodeMsgPayload m

/-- Reads a MessagePack map header (fixmap, map16 or map32). -/
def mapHeader : List Nat → Option (Nat × List Nat)
  | [] => none
  | b :: rest =>
    if 0x80 ≤ b ∧ b ≤ 0x8f then some (b - 0x80, rest)
    else if b = 0xde then readUInt 2 rest
    else if b = 0xdf then readUInt 4 rest
    else none

/-- Parses n key-value pairs of scalar MessagePack values. -/
def parsePairs : Nat → List Nat → Option (List (MpScalar × MpScalar) × List Nat)
  | 0, bs => some ([], bs)
  | n + 1, bs =>
    match parseScalar bs with
    | none => none
    | some (k, bs1) =>
      match parseScalar bs1 with
      | none => none
      | some (v, bs2) =>
        match parsePairs n bs2 with
        | none => none
        | some (ps, rest) => some ((k, v) :: ps, rest)

/-- First value stored under a string key, as serde field lookup does. -/
def findField : List (MpScalar × MpScalar) → List Nat → Option MpScalar
  | [], _ => none
  | (k, v) :: rest, name => if k = .str name then some v else findField rest name

/-- Rebuilds a PeerMessage from the parsed map, dispatching on the "type"
tag and extracting each named field, as serde does for an internally tagged
enum.  Missing fields or wrongly typed fields fail. -/
def msgOfPairs (pairs : List (MpScalar × MpScalar)) : Option PeerMessage :=
  match findField pairs keyType with
  | some (.str tag) =>
    if tag = tagChat then
      match findField pairs keyId, findField pairs keySenderId,
          findField pairs keySenderName, findField pairs keyContent,
          findField pairs keyTimestamp with
      | some (.str id), some (.str sid), some (.str sn), some (.str c),
          some (.int ts) => some (.chat id sid sn c ts)
      | _, _, _, _, _ => none
    else if tag = tagAck then
      match findField pairs keyMessageId with
      | some (.str mid) => some (.ack mid)
      | _ => none
    else if tag = tagPing then some .ping
    else if tag = tagPong then some .pong
    else none
  | _ => none

/-- protocol.rs decode (rmp_serde::from_slice for PeerMessage): reads the
map header and the key-value pairs, then rebuilds the tagged message. -/
def decodeMsg (payload : List Nat) : Option PeerMessage :=
  match mapHeader payload with
  | none => none
  | some (n, bs) =>
    match parsePairs n bs with
    | none => none
    | some (pairs, _) => msgOfPairs pairs

/-- Serialization of one scalar value. -/
def encScalar : MpScalar → List Nat
  | .str s => encodeStr s
  | .int i => encodeSInt i

/-- Serialization of a pair list, key then value, in order. -/
def encodePairs : List (MpScalar × MpScalar) → List Nat
  | [] => []
  | (k, v) :: rest => encScalar k ++ (encScalar v ++ encodePairs rest)

/-- A scalar that the Rust side can actually produce: strings whose byte
length fits the u32 header, integers in i64 range. -/
def scalarValid : MpScalar → Prop
  | .str s => s.length < 4294967296
  | .int i => -9223372036854775808 ≤ i ∧ i < 9223372036854775808

theorem parseScalar_enc (v : MpScalar) (r : List Nat) (h : scalarValid v) :
    parseScalar (encScalar v ++ r) = some (v, r) := by
  cases v with
  | str s =>
      exact parseScalar_str s r (by simpa [scalarValid] using h)
  | int i =>
      obtain ⟨h1, h2⟩ := h
      exact parseScalar_int i r h1 h2

theorem parsePairs_encodePairs (ps : List (MpScalar × MpScalar)) (r : List Nat)
    (h : ∀ p ∈ ps, scalarValid p.1 ∧ scalarValid p.2) :
    parsePairs ps.length (encodePairs ps ++ r) = some (ps, r) := by
  induction ps with
  | nil => simp [encodePairs, parsePairs]
  | cons p rest ih =>
      obtain ⟨k, v⟩ := p
      have hk : scalarValid k := (h (k, v) (by simp)).1
      have hv : scalarValid v := (h (k, v) (by simp)).2
      have hrest : ∀ p ∈ rest, scalarValid p.1 ∧ scalarValid p.2 :=
        fun p hp => h p (List.mem_cons_of_mem _ hp)
      simp only [List.length_cons, parsePairs, encodePairs]
      rw [List.append_assoc, List.append_assoc]
      simp only [parseScalar_enc k _ hk, parseScalar_enc v _ hv, ih hrest]

/-- Validity of a PeerMessage for serialization: every string field fits the
u32 length header written by rmp, and the timestamp is within i64 range, as
is guaranteed for values originating from the Rust types. -/
def msgValid : PeerMessage → Prop
  | .chat id sender_id sender_name content timestamp =>
    id.length < 4294967296 ∧ sender_id.length < 4294967296 ∧
    sender_name.length < 4294967296 ∧ content.length < 4294967296 ∧
    -9223372036854775808 ≤ timestamp ∧ timestamp < 9223372036854775808
  | .ack message_id => message_id.length < 4294967296
  | .ping => True
  | .pong => True

instance (m : PeerMessage) : Decidable (msgValid m) := by
  cases m <;> simp only [msgValid] <;> infer_instance

theorem decodeMsg_chat (id sid sn c : List Nat) (ts : Int)
    (h1 : id.length < 4294967296) (h2 : sid.length < 4294967296)
    (h3 : sn.length < 4294967296) (h4 : c.length < 4294967296)
    (h5 : -9223372036854775808 ≤ ts) (h6 : ts < 9223372036854775808) :
    decodeMsg (encodeMsgPayload (.chat id sid sn c ts)) =
      some (.chat id sid sn c ts) := by
  have hP : ∀ p ∈ [((.str keyType : MpScalar), (.str tagChat : MpScalar)),
      (.str keyId, .str id), (.str keySenderId, .str sid),
      (.str keySenderName, .str sn), (.str keyContent, .str c),
      (.str keyTimestamp, .int ts)], scalarValid p.1 ∧ scalarValid p.2 := by
    intro p hp
    simp only [List.mem_cons, List.not_mem_nil, or_false] at hp
    rcases hp with h | h | h | h | h | h <;> subst h <;>
      simp [scalarValid, keyType, tagChat, keyId, keySenderId, keySenderName,
        keyContent, keyTimestamp] <;> omega
  have hpp := parsePairs_encodePairs _ [] hP
  simp only [List.length_cons, List.length_nil, List.append_nil,
    encodePairs, encScalar] at hpp
  have henc : encodeMsgPayload (.chat id sid sn c ts) =
      0x86 :: (encodeStr keyType ++ (encodeStr tagChat ++
        (encodeStr keyId ++ (encodeStr id ++
        (encodeStr keySenderId ++ (encodeStr sid ++
        (encodeStr keySenderName ++ (encodeStr sn ++
        (encodeStr keyContent ++ (encodeStr c ++
        (encodeStr keyTimestamp ++ encodeSInt ts))))))))))) := rfl
  rw [henc]
  simp only [decodeMsg, mapHeader]
  norm_num
  norm_num at hpp
  rw [hpp]
  simp [msgOfPairs, findField, keyType, tagChat, keyId, keySenderId,
    keySenderName, keyContent, keyTimestamp, tagAck, tagPing, tagPong,
    keyMessageId]

theorem decodeMsg_ack (mid : List Nat) (h1 : mid.length < 4294967296) :
    decodeMsg (encodeMsgPayload (.ack mid)) = some (.ack mid) := by
  have hP : ∀ p ∈ [((.str keyType : MpScalar), (.str tagAck : MpScalar)),
      (.str keyMessageId, .str mid)], scalarValid p.1 ∧ scalarValid p.2 := by
    intro p hp
    simp only [List.mem_cons, List.not_mem_nil, or_false] at hp
    rcases hp with h | h
    · subst h
      exact ⟨by simp [scalarValid, keyType], by simp [scalarValid, tagAck]⟩
    · subst h
      exact ⟨by simp [scalarValid, keyMessageId],
        by simpa [scalarValid] using h1⟩
  have hpp := parsePairs_encodePairs _ [] hP
  simp only [List.length_cons, List.length_nil, List.append_nil,
    encodePairs, encScalar] at hpp
  have henc : encodeMsgPayload (.ack mid) =
      0x82 :: (encodeStr keyType ++ (encodeStr tagAck ++
        (encodeStr keyMessageId ++ encodeStr mid))) := rfl
  rw [henc]
  simp only [decodeMsg, mapHeader]
  norm_num
  norm_num at hpp
  rw [hpp]
  simp [msgOfPairs, findField, keyType, tagChat, keyId, keySenderId,
    keySenderName, keyContent, keyTimestamp, tagAck, tagPing, tagPong,
    keyMessageId]

theorem decodeMsg_ping : decodeMsg (encodeMsgPayload .ping) = some .ping := by
  decide

theorem decodeMsg_pong : decodeMsg (encodeMsgPayload .pong) = some .pong := by
  decide

/-- Claim C4: for every valid PeerMessage of any kind (Chat, Ack, Ping,
Pong), decoding the payload produced by encoding it yields the same
message, and the first four bytes of the encoded frame, read as a
big-endian u32, equal the byte length of the payload that follows them. -/
theorem c4_codec_roundtrip (m : PeerMessage) (hv : msgValid m)
    (hlen : (encodeMsgPayload m).length < 4294967296) :
    decodeMsg (encodeMsgPayload m) = some m ∧
    fromBE ((encode m).take 4) = (encodeMsgPayload m).length ∧
    (encode m).drop 4 = encodeMsgPayload m := by
  refine ⟨?_, ?_, ?_⟩
  · cases m with
    | chat id sid sn c ts =>
        obtain ⟨h1, h2, h3, h4, h5, h6⟩ := hv
        exact decodeMsg_chat id sid sn c ts h1 h2 h3 h4 h5 h6
    | ack mid => exact decodeMsg_ack mid hv
    | ping => exact decodeMsg_ping
    | pong => exact decodeMsg_pong
  · have h4 : (toBE 4 ((encodeMsgPayload m).length % 4294967296)).length = 4 :=
      toBE_length 4 _
    have htk : (encode m).take 4 =
        toBE 4 ((encodeMsgPayload m).length % 4294967296) := by
      rw [encode]
      nth_rewrite 1 [← h4]
      rw [List.take_left]
    rw [htk, fromBE_toBE 4 _ (by norm_num [Nat.mod_lt]),
      Nat.mod_eq_of_lt hlen]
  · have h4 : (toBE 4 ((encodeMsgPayload m).length % 4294967296)).length = 4 :=
      toBE_length 4 _
    rw [encode]
    nth_rewrite 1 [← h4]
    rw [List.drop_left]

/-- Witness for C4: a concrete Chat message round-trips and its frame
length header matches. -/
theorem c4_codec_roundtrip_witness :
    decodeMsg (encodeMsgPayload (.chat [97] [98] [99] [100] 1707849600000)) =
      some (.chat [97] [98] [99] [100] 1707849600000) ∧
    fromBE ((encode (.chat [97] [98] [99] [100] 1707849600000)).take 4) =
      (encodeMsgPayload (.chat [97] [98] [99] [100] 1707849600000)).length ∧
    (encode (.chat [97] [98] [99] [100] 1707849600000)).drop 4 =
      encodeMsgPayload (.chat [97] [98] [99] [100] 1707849600000) :=
  c4_codec_roundtrip (.chat [97] [98] [99] [100] 1707849600000)
    (by decide) (by decide)

/-! ## Framed reader (protocol.rs read_message)

The input list models every byte the peer sends before closing the
connection (EOF).  tokio read_exact returns an UnexpectedEof error whenever
EOF arrives before the requested buffer is full, no matter how many bytes
were already read; read_message maps that error on the 4-byte length read
to ConnectionClosed, so any input shorter than 4 bytes yields
ConnectionClosed.  The payload read converts the same error through the
question-mark operator into the generic Io variant. -/

/-- Result of protocol.rs read_message, with the ProtocolError variants it
can produce (Io covers the payload-read UnexpectedEof, decodeError covers
rmp_serde decode failures). -/
inductive ReadOutcome where
  | ok (m : PeerMessage)
  | connectionClosed
  | frameTooLarge (size : Nat)
  | ioError
  | decodeError
deriving DecidableEq, Repr

/-- protocol.rs read_message over the bytes available until EOF. -/
def readMessage (input : List Nat) : ReadOutcome :=
  if input.length < 4 then .connectionClosed
  else if fromBE (input.take 4) > 1048576 then .frameTooLarge (fromBE (input.take 4))
  else if (input.drop 4).length < fromBE (input.take 4) then .ioError
  else
    match decodeMsg ((input.drop 4).take (fromBE (input.take 4))) with
    | some m => .ok m
    | none => .decodeError

/-- Counterexample for C5: on a stream that delivers one byte of the length
header and then hits EOF (a partial length), the reader reports the
connection-closed condition, although the claim says a partial length is a
protocol error and that connection closed is reported exactly when EOF
occurs before any byte of the prefix. -/
theorem c5_eof_counterexample :
    readMessage [0] = .connectionClosed ∧ ([0] : List Nat).length ≠ 0 := by
  decide

/-- Claim C5 (amended): the reader reports connection closed exactly when
EOF falls anywhere within the 4-byte length prefix (zero to three bytes
read); EOF partway through the payload is reported as a generic I/O
error. -/
theorem c5_eof_handling (input : List Nat) :
    (readMessage input = .connectionClosed ↔ input.length < 4) ∧
    (4 ≤ input.length → fromBE (input.take 4) ≤ 1048576 →
      input.length - 4 < fromBE (input.take 4) → readMessage input = .ioError) := by
  constructor
  · by_cases h1 : input.length < 4
    · simp [readMessage, h1]
    · simp only [readMessage, if_neg h1]
      by_cases h2 : fromBE (input.take 4) > 1048576
      · simp [h2, h1]
      · rw [if_neg h2]
        by_cases h3 : (input.drop 4).length < fromBE (input.take 4)
        · rw [if_pos h3]
          simp [h1]
        · rw [if_neg h3]
          cases hdec : decodeMsg ((input.drop 4).take (fromBE (input.take 4))) <;>
            simp [hdec, h1]
  · intro hge hmax hlt
    have hlen4 : ¬ input.length < 4 := by omega
    have h2 : ¬ fromBE (input.take 4) > 1048576 := by omega
    have hdrop : (input.drop 4).length < fromBE (input.take 4) := by
      simpa using hlt
    unfold readMessage
    rw [if_neg hlen4, if_neg h2, if_pos hdrop]

/-- Witness for C5 (amended): a stream with a full header announcing five
payload bytes but none delivered yields the I/O error, and a one-byte
stream yields connection closed. -/
theorem c5_eof_handling_witness :
    readMessage [0, 0, 0, 5] = .ioError ∧ readMessage [0] = .connectionClosed :=
  ⟨(c5_eof_handling [0, 0, 0, 5]).2 (by decide) (by decide) (by decide),
    (c5_eof_handling [0]).1.mpr (by decide)⟩

/-! ## Inbound per-connection handler (server.rs handle_connection)

One loop iteration of handle_connection, after a frame has been read.  The
handler can write frames back on the same connection and forward the
message together with the remote address to the daemon core; the ordered
action list records those effects in program order.  Write failures on the
Ack or Pong are logged (warn) and change nothing else, so the outcome does
not depend on them; the Boolean oracle arguments stand for the success of
those writes.  No branch returns an error or closes the connection. -/

/-- One observable effect of the connection handler. -/
inductive ConnAction where
  | wireWrite (m : PeerMessage)
  | forwardUp (m : PeerMessage) (fromAddr : String)
deriving DecidableEq, Repr

/-- Outcome of handling one inbound frame in server.rs handle_connection:
the actions in program order and whether the handler terminates the
connection afterwards. -/
structure FrameOutcome where
  actions : List ConnAction
  closeConn : Bool
deriving DecidableEq, Repr

/-- server.rs handle_connection, body of the per-frame loop.  ackWriteOk
and pongWriteOk are oracles for the two write_message calls; their failure
is only logged, which is why they do not influence the result. -/
def handleFrame (msg : PeerMessage) (fromAddr : String)
    (_ackWriteOk _pongWriteOk : Bool) : FrameOutcome :=
  match msg with
  | .chat id _ _ _ _ =>
    { actions := [.wireWrite (.ack id), .forwardUp msg fromAddr]
      closeConn := false }
  | .ping =>
    { actions := [.wireWrite .pong], closeConn := false }
  | .pong =>
    { actions := [], closeConn := false }
  | .ack _ =>
    { actions := [.forwardUp msg fromAddr], closeConn := false }

/-- Claim C6: per inbound frame, a Chat gets an Ack with the same
message_id written on the same connection before the full message plus the
remote address is forwarded upward; a Ping gets a Pong on the same
connection and is not forwarded; a Pong is not forwarded; an Ack is
forwarded upward. -/
theorem c6_frame_dispatch (id sid sn c mid : List Nat) (ts : Int)
    (fromAddr : String) (ackOk pongOk : Bool) :
    handleFrame (.chat id sid sn c ts) fromAddr ackOk pongOk =
      { actions := [.wireWrite (.ack id),
          .forwardUp (.chat id sid sn c ts) fromAddr], closeConn := false } ∧
    handleFrame .ping fromAddr ackOk pongOk =
      { actions := [.wireWrite .pong], closeConn := false } ∧
    handleFrame .pong fromAddr ackOk pongOk =
      { actions := [], closeConn := false } ∧
    handleFrame (.ack mid) fromAddr ackOk pongOk =
      { actions := [.forwardUp (.ack mid) fromAddr], closeConn := false } :=
  ⟨rfl, rfl, rfl, rfl⟩

/-- Claim C10: when writing the Ack for an inbound Chat fails, the handler
behaves exactly as when it succeeds: the connection is not terminated and
the Chat is still forwarded upward with the remote address. -/
theorem c10_ack_write_failure (id sid sn c : List Nat) (ts : Int)
    (fromAddr : String) (pongOk : Bool) :
    handleFrame (.chat id sid sn c ts) fromAddr false pongOk =
      handleFrame (.chat id sid sn c ts) fromAddr true pongOk ∧
    ConnAction.forwardUp (.chat id sid sn c ts) fromAddr ∈
      (handleFrame (.chat id sid sn c ts) fromAddr false pongOk).actions ∧
    (handleFrame (.chat id sid sn c ts) fromAddr false pongOk).closeConn = false :=
  ⟨rfl, by simp [handleFrame], rfl⟩

/-! ## Outbound client (client.rs)

send_message opens a connection, writes one frame, reads one response frame
and checks it.  Connecting, writing and reading are network effects, so the
embedding takes their results as oracle inputs and reproduces the checks the
function performs on them.  The addr payloads of the error variants carry
the address, as in the Rust enum; the human-readable sources are elided. -/

/-- client.rs ClientError. -/
inductive ClientError where
  | connectTimeout (addr : String)
  | connectFailed (addr : String)
  | ackTimeout (addr : String)
  | protocolFailed
  | unexpectedResponse (addr : String)
  | noAddress
deriving DecidableEq, Repr

/-- Outcome of the connect step (TcpStream::connect under a 5 s timeout). -/
inductive ConnectOutcome where
  | ok
  | failed
  | timedOut
deriving DecidableEq, Repr

/-- Outcome of the response read (read_message under a 10 s timeout). -/
inductive ReplyOutcome where
  | ok (m : PeerMessage)
  | protoFailed
  | timedOut
deriving DecidableEq, Repr

/-- client.rs send_message: connect, write the frame, read one response and
require it to be an Ack.  The source matches only the Ack constructor and
never compares the carried message_id with the id of the sent Chat. -/
def sendMessage (addr : String) (_message : PeerMessage)
    (connect : ConnectOutcome) (writeOk : Bool) (reply : ReplyOutcome) :
    Except ClientError Unit :=
  match connect with
  | .failed => .error (.connectFailed addr)
  | .timedOut => .error (.connectTimeout addr)
  | .ok =>
    if !writeOk then .error .protocolFailed
    else
      match reply with
      | .timedOut => .error (.ackTimeout addr)
      | .protoFailed => .error .protocolFailed
      | .ok response =>
        match response with
        | .ack _ => .ok ()
        | _ => .error (.unexpectedResponse addr)

/-- Counterexample for C3: sending a Chat with id m1 and receiving an Ack
carrying the different id m2 succeeds, although the claim says an Ack with
a different message_id yields the UnexpectedResponse error. -/
theorem c3_ack_id_counterexample :
    sendMessage "10.0.0.2:9876" (.chat [109, 49] [97] [65] [104, 105] 0)
      .ok true (.ok (.ack [109, 50])) = .ok () ∧
    ([109, 49] : List Nat) ≠ [109, 50] :=
  ⟨rfl, by decide⟩

/-- Claim C3 (amended): for every address and sent Chat, the outbound send
succeeds exactly when the single response frame read back is an Ack; the
Ack message_id is not compared with the sent Chat id, and any non-Ack
response yields the UnexpectedResponse error. -/
theorem c3_response_check (addr : String) (id sid sn c : List Nat) (ts : Int)
    (response : PeerMessage) :
    (sendMessage addr (.chat id sid sn c ts) .ok true (.ok response) = .ok () ↔
      ∃ mid, response = .ack mid) ∧
    ((∀ mid, response ≠ .ack mid) →
      sendMessage addr (.chat id sid sn c ts) .ok true (.ok response) =
        .error (.unexpectedResponse addr)) := by
  constructor
  · constructor
    · intro h
      cases response with
      | ack mid => exact ⟨mid, rfl⟩
      | chat a b d e f => simp [sendMessage] at h
      | ping => simp [sendMessage] at h
      | pong => simp [sendMessage] at h
    · rintro ⟨mid, rfl⟩
      rfl
  · intro h
    cases response with
    | ack mid => exact absurd rfl (h mid)
    | chat a b d e f => rfl
    | ping => rfl
    | pong => rfl

/-- Witness for C3 (amended): a Pong response produces UnexpectedResponse
at a concrete address and message. -/
theorem c3_response_check_witness :
    sendMessage "10.0.0.2:9876" (.chat [109, 49] [97] [65] [104, 105] 0)
      .ok true (.ok .pong) = .error (.unexpectedResponse "10.0.0.2:9876") :=
  (c3_response_check "10.0.0.2:9876" [109, 49] [97] [65] [104, 105] 0 .pong).2
    (fun mid h => by cases h)

/-- client.rs send_to_any, instrumented with the list of addresses that were
actually tried (in order).  The attempt oracle gives the outcome of
send_message for each address.  The loop records the last error and, after
trying every address, returns it; an empty list returns NoAddress before
any attempt. -/
def sendToAnyGo (attempt : String → Except ClientError Unit) :
    List String → Option ClientError → Except ClientError Unit × List String
  | [], lastError => (.error (lastError.getD .noAddress), [])
  | a :: rest, _lastError =>
    match attempt a with
    | .ok () => (.ok (), [a])
    | .error e =>
      let r := sendToAnyGo attempt rest (some e)
      (r.1, a :: r.2)

/-- client.rs send_to_any: empty-list check, then the fall-through loop. -/
def sendToAny (attempt : String → Except ClientError Unit)
    (addresses : List String) : Except ClientError Unit × List String :=
  if addresses.isEmpty then (.error .noAddress, [])
  else sendToAnyGo attempt addresses none

/-- Whether a send outcome is a success. -/
def sendOk (r : Except ClientError Unit) : Bool :=
  match r with
  | .ok () => true
  | .error _ => false

theorem sendToAnyGo_cons (attempt : String → Except ClientError Unit)
    (a : String) (rest : List String) (acc : Option ClientError) :
    sendToAnyGo attempt (a :: rest) acc =
      match attempt a with
      | .ok () => (.ok (), [a])
      | .error e => ((sendToAnyGo attempt rest (some e)).1,
          a :: (sendToAnyGo attempt rest (some e)).2) := rfl

theorem sendToAnyGo_all_fail (attempt : String → Except ClientError Unit)
    (addrs : List String) :
    ∀ (acc : Option ClientError) (lastAddr : String),
      (∀ a ∈ addrs, sendOk (attempt a) = false) →
      addrs.getLast? = some lastAddr →
      sendToAnyGo attempt addrs acc = (attempt lastAddr, addrs) := by
  induction addrs with
  | nil =>
      intro acc lastAddr h hlast
      simp at hlast
  | cons a rest ih =>
      intro acc lastAddr h hlast
      have ha : sendOk (attempt a) = false := h a (by simp)
      cases hr : attempt a with
      | ok v =>
          rw [hr] at ha
          simp [sendOk] at ha
      | error e =>
          cases rest with
          | nil =>
              have hla : lastAddr = a := by
                simp [List.getLast?] at hlast
                exact hlast.symm
              subst hla
              simp [sendToAnyGo, hr]
          | cons b bs =>
              have hlast2 : (b :: bs).getLast? = some lastAddr := by
                simpa [List.getLast?_cons_cons] using hlast
              have h2 : ∀ x ∈ b :: bs, sendOk (attempt x) = false :=
                fun x hx => h x (List.mem_cons_of_mem _ hx)
              rw [sendToAnyGo_cons, hr]
              simp [ih (some e) lastAddr h2 hlast2]

theorem sendToAnyGo_first_ok (attempt : String → Except ClientError Unit)
    (a : String) (post : List String) (hok : sendOk (attempt a) = true) :
    ∀ (pre : List String) (acc : Option ClientError),
      (∀ x ∈ pre, sendOk (attempt x) = false) →
      sendToAnyGo attempt (pre ++ a :: post) acc = (.ok (), pre ++ [a]) := by
  intro pre
  induction pre with
  | nil =>
      intro acc hpre
      cases hr : attempt a with
      | ok v => simp [sendToAnyGo, hr]
      | error e =>
          rw [hr] at hok
          simp [sendOk] at hok
  | cons p ps ih =>
      intro acc hpre
      have hp : sendOk (attempt p) = false := hpre p (by simp)
      cases hr : attempt p with
      | ok v =>
          rw [hr] at hp
          simp [sendOk] at hp
      | error e =>
          have hps : ∀ x ∈ ps, sendOk (attempt x) = false :=
            fun x hx => hpre x (List.mem_cons_of_mem _ hx)
          rw [List.cons_append, sendToAnyGo_cons, hr]
          simp [ih (some e) hps]

/-- Claim C7: send_to_any tries the addresses strictly in list order,
succeeds at the first address whose attempt succeeds without contacting
the later addresses, returns the error produced at the last address when
every attempt fails, and returns NoAddress on an empty address list.  The
second component of the result lists the addresses actually contacted, in
order. -/
theorem c7_send_to_any (attempt : String → Except ClientError Unit) :
    sendToAny attempt [] = (.error .noAddress, []) ∧
    (∀ pre a post, (∀ x ∈ pre, sendOk (attempt x) = false) →
      sendOk (attempt a) = true →
      sendToAny attempt (pre ++ a :: post) = (.ok (), pre ++ [a])) ∧
    (∀ addrs lastAddr, (∀ x ∈ addrs, sendOk (attempt x) = false) →
      addrs.getLast? = some lastAddr →
      sendToAny attempt addrs = (attempt lastAddr, addrs)) := by
  refine ⟨rfl, ?_, ?_⟩
  · intro pre a post hpre hok
    rw [sendToAny, if_neg (by simp)]
    exact sendToAnyGo_first_ok attempt a post hok pre none hpre
  · intro addrs lastAddr hall hlast
    have hne : addrs ≠ [] := by
      intro h
      subst h
      simp at hlast
    rw [sendToAny, if_neg (by simpa using hne)]
    exact sendToAnyGo_all_fail attempt addrs none lastAddr hall hlast

/-- A concrete attempt oracle for the C7 witness: only the address b is
reachable; every other address times out on connect. -/
def attemptOracle : String → Except ClientError Unit :=
  fun a => if a = "b" then .ok () else .error (.connectTimeout a)

/-- Witness for C7: with only address b reachable, the empty list returns
NoAddress, the list a b c succeeds at b without contacting c, and the list
a c returns the connect timeout of c after trying both addresses. -/
theorem c7_send_to_any_witness :
    sendToAny attemptOracle [] = (.error .noAddress, []) ∧
    sendToAny attemptOracle ["a", "b", "c"] = (.ok (), ["a", "b"]) ∧
    sendToAny attemptOracle ["a", "c"] =
      (.error (.connectTimeout "c"), ["a", "c"]) :=
  ⟨(c7_send_to_any attemptOracle).1,
    (c7_send_to_any attemptOracle).2.1 ["a"] "b" ["c"] (by decide) (by decide),
    (c7_send_to_any attemptOracle).2.2 ["a", "c"] "c" (by decide) (by decide)⟩

/-! ## Store (db.rs)

The messages table is modelled as a list of rows; the id column is the
primary key, so well-formed stores hold at most one row per id.
mark_delivered runs UPDATE messages SET delivered = 1 WHERE id = ?1 and
returns rows_affected > 0.  SQLite counts every row matched by the WHERE
clause as changed, even when the stored value already was 1, so the Boolean
result only reports whether a row with that id exists. -/

/-- types.rs Direction. -/
inductive Direction where
  | sent
  | received
deriving DecidableEq, Repr

/-- types.rs Message, one row of the messages table.  The content is kept
as the character list of the Rust String. -/
structure Message where
  id : String
  peer_id : String
  direction : Direction
  content : List Char
  timestamp : Int
  delivered : Bool
deriving DecidableEq, Repr

/-- db.rs mark_delivered: the updated table and the returned Boolean
(rows_affected > 0, which for the primary-key WHERE clause means a row
with that id exists). -/
def markDelivered (store : List Message) (messageId : String) :
    List Message × Bool :=
  (store.map fun m => if m.id = messageId then { m with delivered := true } else m,
   store.any fun m => decide (m.id = messageId))

/-- Whether a call to mark_delivered would flip some row from
undelivered to delivered; the claim says the returned Boolean equals
exactly this. -/
def markDeliveredTransitions (store : List Message) (messageId : String) : Bool :=
  store.any fun m => decide (m.id = messageId) && decide (m.delivered = false)

/-- Counterexample for C2: on a store whose only message with id m1 is
already delivered, mark_delivered returns true even though no row
transitions from false to true, so the return value is not the transition
indicator the claim describes. -/
theorem c2_mark_delivered_counterexample :
    (markDelivered [{ id := "m1", peer_id := "p1", direction := .sent,
                      content := ['h'], timestamp := 5,
                      delivered := true }] "m1").2 = true ∧
    markDeliveredTransitions [{ id := "m1", peer_id := "p1",
                                direction := .sent, content := ['h'],
                                timestamp := 5,
                                delivered := true }] "m1" = false :=
  ⟨rfl, rfl⟩

/-- Claim C2 (amended): mark_delivered is idempotent, and it returns true
exactly when a message with that id exists in the store, regardless of
whether the delivered flag actually changed (SQLite counts a matched row
as changed even when it is updated to the value it already had); in
particular it returns false exactly when the message does not exist. -/
theorem c2_mark_delivered (store : List Message) (messageId : String) :
    (markDelivered store messageId).2 =
      (store.any fun m => decide (m.id = messageId)) ∧
    markDelivered (markDelivered store messageId).1 messageId =
      markDelivered store messageId := by
  refine ⟨rfl, ?_⟩
  unfold markDelivered
  refine Prod.ext ?_ ?_
  · simp only [List.map_map]
    apply List.map_congr_left
    intro m _
    by_cases h : m.id = messageId <;> simp [h]
  · simp only [List.any_map]
    induction store with
    | nil => rfl
    | cons m ms ih =>
        simp only [List.any_cons, ih]
        by_cases h : m.id = messageId <;> simp [h, Function.comp]

/-! ## Validated domain values (types.rs) and the daemon core (app.rs)

The character-level operations mirror the Rust standard library: str::trim
removes characters with the Unicode White_Space property from both ends,
and str::len counts UTF-8 bytes. -/

/-- char::is_whitespace: the Unicode White_Space code points. -/
def rustIsWhitespace (c : Char) : Bool :=
  decide ((9 ≤ c.toNat ∧ c.toNat ≤ 13) ∨ c.toNat = 32 ∨ c.toNat = 133 ∨
    c.toNat = 160 ∨ c.toNat = 5760 ∨ (8192 ≤ c.toNat ∧ c.toNat ≤ 8202) ∨
    c.toNat = 8232 ∨ c.toNat = 8233 ∨ c.toNat = 8239 ∨ c.toNat = 8287 ∨
    c.toNat = 12288)

/-- str::trim: strip whitespace characters from both ends. -/
def rustTrim (s : List Char) : List Char :=
  ((s.dropWhile rustIsWhitespace).reverse.dropWhile rustIsWhitespace).reverse

/-- Number of bytes of the UTF-8 encoding of one character. -/
def utf8CharLen (c : Char) : Nat :=
  if c.toNat < 128 then 1
  else if c.toNat < 2048 then 2
  else if c.toNat < 65536 then 3
  else 4

/-- str::len: the UTF-8 byte length of a string. -/
def utf8Len (s : List Char) : Nat :=
  (s.map utf8CharLen).sum

/-- types.rs MessageContent::new succeeds: the content is not entirely
whitespace (the content itself is not trimmed) and is at most 10000
bytes. -/
def messageContentValid (content : List Char) : Bool :=
  !(rustTrim content).isEmpty && decide (utf8Len content ≤ 10000)

/-- types.rs PeerInfo. -/
structure PeerInfo where
  id : String
  display_name : String
  addresses : List String
  last_seen_at : Int
  online : Bool
deriving DecidableEq, Repr

/-- The daemon state touched by app.rs handle_send_message: the in-memory
OnlineSet and the peers and messages tables of the store. -/
structure DaemonState where
  onlinePeers : List (String × PeerInfo)
  dbPeers : List PeerInfo
  dbMessages : List Message
deriving DecidableEq, Repr

/-- HashMap::get on the OnlineSet (at most one entry per key). -/
def onlineLookup (m : List (String × PeerInfo)) (k : String) : Option PeerInfo :=
  (m.find? fun p => decide (p.1 = k)).map fun p => p.2

/-- ipc.rs ServerMessage.  The human-readable message carried next to each
error code is elided; the claims only constrain the code. -/
inductive ServerMessage where
  | ok
  | peerList (peers : List PeerInfo)
  | messages (msgs : List Message)
  | messageSent (message_id : String)
  | newMessage (message : Message)
  | peerOnline (peer : PeerInfo)
  | peerOffline (peer_id : String)
  | messageDelivered (message_id : String)
  | config (display_name : String) (peer_id : String)
  | error (code : String)
deriving DecidableEq, Repr

/-- app.rs handle_send_message address resolution: the OnlineSet entry
first, otherwise the last known addresses from the store, otherwise the
empty list. -/
def resolveAddresses (st : DaemonState) (peerId : String) : List String :=
  match onlineLookup st.onlinePeers peerId with
  | some info => info.addresses
  | none =>
    match st.dbPeers.find? fun p => decide (p.id = peerId) with
    | some p => p.addresses
    | none => []

/-- app.rs handle_send_message.  freshId and timestamp stand for the
generated MessageId::generate() and Timestamp::now(); sendSucceeds is the
oracle for the outcome of client::send_to_any.  Database lock poisoning
(only possible after a panic) is not modelled. -/
def handleSendMessage (st : DaemonState) (peerId : String) (content : List Char)
    (freshId : String) (timestamp : Int) (sendSucceeds : Bool) :
    ServerMessage × DaemonState :=
  if !messageContentValid content then (.error "invalid_content", st)
  else
    if (resolveAddresses st peerId).isEmpty then (.error "peer_not_found", st)
    else
      if st.dbMessages.any fun m => decide (m.id = freshId) then
        (.error "db_error", st)
      else
        let message : Message := { id := freshId, peer_id := peerId,
                                   direction := .sent, content := content,
                                   timestamp := timestamp, delivered := false }
        let st1 := { st with dbMessages := message :: st.dbMessages }
        if sendSucceeds then
          (.messageSent freshId,
            { st1 with dbMessages := (markDelivered st1.dbMessages freshId).1 })
        else (.messageSent freshId, st1)

/-- Claim C1: under a valid content and a fresh message id (so that the
local save succeeds), an empty resolved address list yields the
peer_not_found error with nothing saved, while a non-empty list yields the
MessageSent reply carrying the fresh id whether or not the outbound send
succeeds, and on a failed send the saved record remains with
delivered = false and no mark_delivered occurs. -/
theorem c1_send_message (st : DaemonState) (peerId : String)
    (content : List Char) (freshId : String) (ts : Int)
    (hvalid : messageContentValid content = true)
    (hfresh : (st.dbMessages.any fun m => decide (m.id = freshId)) = false) :
    (resolveAddresses st peerId = [] →
      ∀ sendSucceeds, handleSendMessage st peerId content freshId ts sendSucceeds =
        (.error "peer_not_found", st)) ∧
    (resolveAddresses st peerId ≠ [] →
      (∀ sendSucceeds,
        (handleSendMessage st peerId content freshId ts sendSucceeds).1 =
          .messageSent freshId) ∧
      (handleSendMessage st peerId content freshId ts false).2.dbMessages =
        { id := freshId, peer_id := peerId, direction := .sent,
          content := content, timestamp := ts,
          delivered := false
          : Message } :: st.dbMessages) := by
  constructor
  · intro haddr sendSucceeds
    simp [handleSendMessage, hvalid, haddr]
  · intro hne
    cases haddr : resolveAddresses st peerId with
    | nil => exact absurd haddr hne
    | cons a as =>
        constructor
        · intro sendSucceeds
          cases sendSucceeds <;> simp [handleSendMessage, hvalid, haddr, hfresh]
        · simp [handleSendMessage, hvalid, haddr, hfresh]

/-- Concrete daemon state for the C1 witness: one online peer p1 with one
address, empty tables. -/
def stateW : DaemonState :=
  { onlinePeers := [("p1", { id := "p1", display_name := "PC",
                             addresses := ["10.0.0.2:9876"], last_seen_at := 0,
                             online := true })],
    dbPeers := [], dbMessages := [] }

/-- Witness for C1: on the concrete state, a failed send still replies
MessageSent m1 and leaves the record undelivered. -/
theorem c1_send_message_witness :
    (handleSendMessage stateW "p1" ['h', 'i'] "m1" 5 false).1 =
      .messageSent "m1" ∧
    (handleSendMessage stateW "p1" ['h', 'i'] "m1" 5 false).2.dbMessages =
      [{ id := "m1", peer_id := "p1", direction := .sent,
         content := ['h', 'i'], timestamp := 5, delivered := false }] :=
  ⟨((c1_send_message stateW "p1" ['h', 'i'] "m1" 5 (by decide) rfl).2
      (by decide)).1 false,
    ((c1_send_message stateW "p1" ['h', 'i'] "m1" 5 (by decide) rfl).2
      (by decide)).2⟩

/-! ## SetDisplayName (app.rs handle_set_display_name)

The handler validates with name.trim().is_empty() and name.len() > 50: the
emptiness check runs on the trimmed name, but the 50-byte bound is checked
on the original, untrimmed name.  On success the in-memory configuration
receives the trimmed name and the file save is attempted; a failed save
replies config_error with the in-memory name already updated. -/

/-- The configuration fields touched by the handler. -/
structure AppConfig where
  display_name : List Char
  peer_id : String
deriving DecidableEq, Repr

/-- app.rs handle_set_display_name.  saveOk is the oracle for
config.save(). -/
def handleSetDisplayName (config : AppConfig) (name : List Char)
    (saveOk : Bool) : ServerMessage × AppConfig :=
  if (rustTrim name).isEmpty || decide (utf8Len name > 50) then
    (.error "invalid_name", config)
  else
    let config1 := { config with display_name := rustTrim name }
    if saveOk then (.ok, config1) else (.error "config_error", config1)

/-- Concrete configuration for the C8 theorems. -/
def configW : AppConfig :=
  { display_name := ['P', 'C'], peer_id := "p1" }

/-- Counterexample for C8: fifty spaces followed by the letter a trim to a
one-byte name, which the claim says must be accepted, yet the handler
rejects it with invalid_name because the untrimmed string is 51 bytes. -/
theorem c8_display_name_counterexample :
    handleSetDisplayName configW (List.replicate 50 ' ' ++ ['a']) true =
      (.error "invalid_name", configW) ∧
    1 ≤ utf8Len (rustTrim (List.replicate 50 ' ' ++ ['a'])) ∧
    utf8Len (rustTrim (List.replicate 50 ' ' ++ ['a'])) ≤ 50 := by
  refine ⟨?_, by decide, by decide⟩
  decide

/-- Claim C8 (amended): the request is accepted, with the configuration
updated to the trimmed name, exactly when the trimmed name is non-empty
and the original untrimmed string is at most 50 bytes; otherwise the
handler replies invalid_name and leaves the configuration unchanged.  When
the validation passes but the config file save fails, the reply is the
config_error code and the in-memory configuration still holds the trimmed
name. -/
theorem c8_set_display_name (config : AppConfig) (name : List Char)
    (saveOk : Bool) :
    ((rustTrim name).isEmpty = true ∨ utf8Len name > 50 →
      handleSetDisplayName config name saveOk = (.error "invalid_name", config)) ∧
    ((rustTrim name).isEmpty = false → utf8Len name ≤ 50 →
      handleSetDisplayName config name true =
        (.ok, { config with display_name := rustTrim name }) ∧
      handleSetDisplayName config name false =
        (.error "config_error", { config with display_name := rustTrim name })) := by
  constructor
  · intro h
    rcases h with h | h <;> simp [handleSetDisplayName, h]
  · intro hne hlen
    have hgt : ¬ utf8Len name > 50 := by omega
    constructor <;> simp [handleSetDisplayName, hne, hgt]

/-- Witness for C8 (amended): the two-character name PC is accepted and
stored trimmed. -/
theorem c8_set_display_name_witness :
    handleSetDisplayName configW ['P', 'C'] true =
      (.ok, { configW with display_name := rustTrim ['P', 'C'] }) :=
  ((c8_set_display_name configW ['P', 'C'] true).2 (by decide) (by decide)).1

/-! ## Discovery adapter (discovery.rs browse_loop)

The browse loop keeps a map from mDNS service fullname to the PeerId last
resolved under it and turns mdns-sd ServiceEvents into DiscoveryEvents.
A resolved instance without a peer_id text attribute is skipped before the
map insert and before any event is produced.  Resolved endpoints are kept
as structured address and port pairs; the Rust code formats them into
ip:port strings, which the claims do not inspect. -/

/-- An IP address: either v4, or v6 with its first 16-bit segment kept
separate because the link-local test inspects it. -/
inductive IpAddr where
  | v4 (a b c d : Nat)
  | v6 (seg0 : Nat) (restSegs : List Nat)
deriving DecidableEq, Repr

/-- discovery.rs is_ipv6_link_local: fe80::/10, first segment masked with
0xffc0 equals 0xfe80; v4 addresses are never link local. -/
def isIpv6LinkLocal : IpAddr → Bool
  | .v6 seg0 _ => decide (Nat.land seg0 0xffc0 = 0xfe80)
  | .v4 _ _ _ _ => false

/-- The parts of mdns_sd ServiceInfo that browse_loop reads: fullname,
text-record properties, port and resolved addresses. -/
structure ResolvedInfo where
  fullname : String
  props : List (String × String)
  port : Nat
  addrs : List IpAddr
deriving DecidableEq, Repr

/-- Text-record lookup (get_property_val_str). -/
def getProp (props : List (String × String)) (key : String) : Option String :=
  (props.find? fun p => decide (p.1 = key)).map fun p => p.2

/-- mdns_sd ServiceEvent. -/
inductive MdnsEvent where
  | serviceResolved (info : ResolvedInfo)
  | serviceRemoved (serviceType : String) (fullname : String)
  | serviceFound (serviceType : String) (fullname : String)
  | searchStarted (serviceType : String)
  | searchStopped (serviceType : String)
deriving DecidableEq, Repr

/-- A discovered peer as emitted by the adapter (PeerInfo with structured
endpoints). -/
structure DiscoveredPeer where
  id : String
  display_name : String
  endpoints : List (IpAddr × Nat)
  last_seen_at : Int
  online : Bool
deriving DecidableEq, Repr

/-- discovery.rs DiscoveryEvent. -/
inductive DiscoveryEvent where
  | peerFound (peer : DiscoveredPeer)
  | peerLost (peer_id : String)
deriving DecidableEq, Repr

/-- HashMap::insert on the fullname-to-peer-id map (replaces an existing
entry for the same key). -/
def labelInsert (k v : String) (m : List (String × String)) :
    List (String × String) :=
  (k, v) :: m.filter fun p => decide (p.1 ≠ k)

/-- HashMap lookup by fullname. -/
def labelLookup (m : List (String × String)) (k : String) : Option String :=
  (m.find? fun p => decide (p.1 = k)).map fun p => p.2

/-- HashMap::remove by fullname. -/
def labelRemove (k : String) (m : List (String × String)) :
    List (String × String) :=
  m.filter fun p => decide (p.1 ≠ k)

/-- One iteration of discovery.rs browse_loop: the updated
fullname-to-peer-id map and the DiscoveryEvents sent upward.  ourId is the
local PeerId used for the self-discovery check, now stands for
Timestamp::now(). -/
def browseStep (ourId : String) (now : Int) (st : List (String × String)) :
    MdnsEvent → List (String × String) × List DiscoveryEvent
  | .serviceResolved info =>
    match getProp info.props "peer_id" with
    | none => (st, [])
    | some pid =>
      if pid = ourId then (st, [])
      else
        if ((info.addrs.filter fun a => !isIpv6LinkLocal a).map
            fun a => (a, info.port)).isEmpty then (st, [])
        else
          (labelInsert info.fullname pid st,
            [.peerFound { id := pid,
                          display_name :=
                            (getProp info.props "display_name").getD "Unknown",
                          endpoints :=
                            (info.addrs.filter fun a => !isIpv6LinkLocal a).map
                              fun a => (a, info.port),
                          last_seen_at := now, online := true }])
  | .serviceRemoved _ fullname =>
    match labelLookup st fullname with
    | some pid => (labelRemove fullname st, [.peerLost pid])
    | none => (st, [])
  | .serviceFound _ _ => (st, [])
  | .searchStarted _ => (st, [])
  | .searchStopped _ => (st, [])

/-- The browse loop over a whole event trace: final map and concatenated
emitted events. -/
def browseRun (ourId : String) (now : Int) :
    List (String × String) → List MdnsEvent →
    List (String × String) × List DiscoveryEvent
  | st, [] => (st, [])
  | st, ev :: evs =>
    ((browseRun ourId now (browseStep ourId now st ev).1 evs).1,
      (browseStep ourId now st ev).2 ++
        (browseRun ourId now (browseStep ourId now st ev).1 evs).2)

/-- Whether an event refers to the service label l. -/
def mentionsLabel (l : String) : MdnsEvent → Bool
  | .serviceResolved info => decide (info.fullname = l)
  | .serviceRemoved _ fullname => decide (fullname = l)
  | _ => false

/-- Every resolution of label l in the trace lacks the peer_id
attribute. -/
def lacksPeerIdIfLabel (l : String) : MdnsEvent → Bool
  | .serviceResolved info =>
    !(decide (info.fullname = l)) || (getProp info.props "peer_id").isNone
  | _ => true

theorem labelLookup_eq_none (m : List (String × String)) (l : String) :
    labelLookup m l = none ↔ ∀ p ∈ m, p.1 ≠ l := by
  unfold labelLookup
  rw [Option.map_eq_none', List.find?_eq_none]
  simp

theorem labelInsert_lookup_none (m : List (String × String)) (k v l : String)
    (hk : k ≠ l) (h : labelLookup m l = none) :
    labelLookup (labelInsert k v m) l = none := by
  rw [labelLookup_eq_none] at h ⊢
  intro p hp
  simp only [labelInsert, List.mem_cons, List.mem_filter] at hp
  rcases hp with hp | hp
  · subst hp
    exact hk
  · exact h p hp.1

theorem labelRemove_lookup_none (m : List (String × String)) (k l : String)
    (h : labelLookup m l = none) :
    labelLookup (labelRemove k m) l = none := by
  rw [labelLookup_eq_none] at h ⊢
  intro p hp
  simp only [labelRemove, List.mem_filter] at hp
  exact h p hp.1

theorem browseStep_preserves_none (ourId : String) (now : Int)
    (st : List (String × String)) (e : MdnsEvent) (l : String)
    (hm : mentionsLabel l e = false) (hst : labelLookup st l = none) :
    labelLookup (browseStep ourId now st e).1 l = none := by
  cases e with
  | serviceResolved info =>
      have hf : info.fullname ≠ l := by
        simpa [mentionsLabel] using hm
      cases hgp : getProp info.props "peer_id" with
      | none => simpa [browseStep, hgp] using hst
      | some pid =>
          by_cases hself : pid = ourId
          · simpa [browseStep, hgp, hself] using hst
          · by_cases hempty : ((info.addrs.filter fun a => !isIpv6LinkLocal a).map
                fun a => (a, info.port)).isEmpty
            · simpa [browseStep, hgp, hself, hempty] using hst
            · simp only [browseStep, hgp, hself, if_false, hempty]
              simpa [hempty] using labelInsert_lookup_none st info.fullname pid l hf hst
  | serviceRemoved ty fullname =>
      cases hlk : labelLookup st fullname with
      | none => simpa [browseStep, hlk] using hst
      | some pid =>
          simp only [browseStep, hlk]
          exact labelRemove_lookup_none st fullname l hst
  | serviceFound ty fn => simpa [browseStep] using hst
  | searchStarted ty => simpa [browseStep] using hst
  | searchStopped ty => simpa [browseStep] using hst

/-- Claim C9: when every resolution of service label l in the trace lacks
the peer_id text attribute, and the label is initially unknown, then the
adapter never records a label-to-identity mapping for l, and the whole run
(final map and emitted events) equals the run on the trace with every
event about l removed: the instance contributes no PeerFound, no later
PeerLost for its label, and never reaches the OnlineSet. -/
theorem c9_missing_peer_id (ourId : String) (now : Int) (l : String)
    (evs : List MdnsEvent) :
    evs.all (lacksPeerIdIfLabel l) = true →
    ∀ st : List (String × String), labelLookup st l = none →
      labelLookup (browseRun ourId now st evs).1 l = none ∧
      browseRun ourId now st evs =
        browseRun ourId now st (evs.filter fun e => !mentionsLabel l e) := by
  induction evs with
  | nil =>
      intro _ st hst
      exact ⟨hst, rfl⟩
  | cons e evs ih =>
      intro hlabel st hst
      have he : lacksPeerIdIfLabel l e = true := by
        simp only [List.all_cons, Bool.and_eq_true] at hlabel
        exact hlabel.1
      have hrest : evs.all (lacksPeerIdIfLabel l) = true := by
        simp only [List.all_cons, Bool.and_eq_true] at hlabel
        exact hlabel.2
      by_cases hm : mentionsLabel l e = true
      · have hstep : browseStep ourId now st e = (st, []) := by
          cases e with
          | serviceResolved info =>
              have hf : info.fullname = l := by
                simpa [mentionsLabel] using hm
              have hgp : getProp info.props "peer_id" = none := by
                simp [lacksPeerIdIfLabel, hf] at he
                simpa [Option.isNone_iff_eq_none] using he
              simp [browseStep, hgp]
          | serviceRemoved ty fullname =>
              have hf : fullname = l := by
                simpa [mentionsLabel] using hm
              subst hf
              simp [browseStep, hst]
          | serviceFound ty fn => simp [mentionsLabel] at hm
          | searchStarted ty => simp [mentionsLabel] at hm
          | searchStopped ty => simp [mentionsLabel] at hm
        have hfilter : (e :: evs).filter (fun x => !mentionsLabel l x) =
            evs.filter fun x => !mentionsLabel l x := by
          simp [List.filter_cons, hm]
        obtain ⟨ih1, ih2⟩ := ih hrest st hst
        refine ⟨?_, ?_⟩
        · simpa [browseRun, hstep] using ih1
        · simp only [browseRun, hstep, hfilter]
          simpa using ih2
      · have hm' : mentionsLabel l e = false := by
          simpa using hm
        have hpres := browseStep_preserves_none ourId now st e l hm' hst
        obtain ⟨ih1, ih2⟩ := ih hrest (browseStep ourId now st e).1 hpres
        have hfilter : (e :: evs).filter (fun x => !mentionsLabel l x) =
            e :: (evs.filter fun x => !mentionsLabel l x) := by
          simp [List.filter_cons, hm']
        refine ⟨?_, ?_⟩
        · simpa [browseRun] using ih1
        · simp only [browseRun, hfilter]
          rw [ih2]

/-- A resolved instance without a peer_id attribute, for the C9 witness. -/
def resolvedNoId : ResolvedInfo :=
  { fullname := "Sala._familycom._tcp.local.",
    props := [("display_name", "Sala")], port := 9876,
    addrs := [.v4 192 168 1 10] }

/-- Witness trace for C9: the anonymous instance resolves and is later
removed. -/
def evsW : List MdnsEvent :=
  [.serviceResolved resolvedNoId,
    .serviceRemoved "_familycom._tcp.local." "Sala._familycom._tcp.local."]

/-- Witness for C9: on the concrete trace, the label never enters the map
and the run equals the run on the trace with both events about the label
removed. -/
theorem c9_missing_peer_id_witness :
    labelLookup (browseRun "me" 0 [] evsW).1 "Sala._familycom._tcp.local." =
      none ∧
    browseRun "me" 0 [] evsW =
      browseRun "me" 0 []
        (evsW.filter fun e => !mentionsLabel "Sala._familycom._tcp.local." e) :=
  c9_missing_peer_id "me" 0 "Sala._familycom._tcp.local." evsW (by decide) []
    rfl

end FamilyCom
